import Mathlib

/-!
Verification of the simple-turtle repository (src/src/turtle.ts, src/src/steps.ts,
src/src/queue.ts, src/src/colors.ts) against its natural-language specification.

Numbers: JavaScript numbers are modelled as exact rationals extended with the
IEEE special values Infinity, -Infinity and NaN (rounding is idealized away,
matching the spec's "within floating-point tolerance" phrasing).  The special
values matter because `_doStraightLine` divides by a direction component that
can be zero.
-/

/-- A JavaScript number: a finite rational, a signed infinity (`inf true` is
positive infinity), or NaN. -/
inductive JQ where
  | fin : ℚ → JQ
  | inf : Bool → JQ
  | nan : JQ
deriving DecidableEq

/-- JavaScript `<` (any comparison with NaN is false). -/
def jlt : JQ → JQ → Bool
  | .fin a, .fin b => decide (a < b)
  | .fin _, .inf b => b
  | .inf a, .fin _ => !a
  | .inf a, .inf b => !a && b
  | _, _ => false

/-- JavaScript `<=` (any comparison with NaN is false). -/
def jle : JQ → JQ → Bool
  | .fin a, .fin b => decide (a ≤ b)
  | .fin _, .inf b => b
  | .inf a, .fin _ => !a
  | .inf a, .inf b => !a || b
  | _, _ => false

/-- JavaScript `>`. -/
def jgt (a b : JQ) : Bool := jlt b a

/-- JavaScript `>=`. -/
def jge (a b : JQ) : Bool := jle b a

/-- JavaScript unary negation. -/
def jneg : JQ → JQ
  | .fin a => .fin (-a)
  | .inf s => .inf (!s)
  | .nan => .nan

/-- JavaScript addition on extended numbers. -/
def jadd : JQ → JQ → JQ
  | .nan, _ => .nan
  | _, .nan => .nan
  | .fin a, .fin b => .fin (a + b)
  | .fin _, .inf s => .inf s
  | .inf s, .fin _ => .inf s
  | .inf s, .inf t => if s = t then .inf s else .nan

/-- JavaScript subtraction. -/
def jsub (a b : JQ) : JQ := jadd a (jneg b)

/-- JavaScript multiplication (`0 * Infinity = NaN`). -/
def jmul : JQ → JQ → JQ
  | .nan, _ => .nan
  | _, .nan => .nan
  | .fin a, .fin b => .fin (a * b)
  | .fin a, .inf s => if a = 0 then .nan else .inf (s == decide (0 < a))
  | .inf s, .fin b => if b = 0 then .nan else .inf (s == decide (0 < b))
  | .inf s, .inf t => .inf (s == t)

/-- JavaScript division (`q / 0` is a signed infinity for `q ≠ 0`, `0 / 0 = NaN`). -/
def jdiv : JQ → JQ → JQ
  | .nan, _ => .nan
  | _, .nan => .nan
  | .fin a, .fin b =>
    if b = 0 then (if a = 0 then .nan else .inf (decide (0 < a))) else .fin (a / b)
  | .fin _, .inf _ => .fin 0
  | .inf s, .fin b => .inf (s == decide (0 ≤ b))
  | .inf _, .inf _ => .nan

/-- JavaScript `Math.abs`. -/
def jabs : JQ → JQ
  | .fin a => .fin |a|
  | .inf _ => .inf true
  | .nan => .nan

/-- Whether a JavaScript number is an ordinary finite value. -/
def isFin : JQ → Bool
  | .fin _ => true
  | _ => false

/-- A point handed to the canvas (`moveTo`/`lineTo` arguments). -/
abbrev Pt := JQ × JQ

/-- A stroked segment: the `moveTo` point and the following `lineTo` point. -/
abbrev Seg := Pt × Pt

/-- Both coordinates of a point are finite. -/
def finPt (p : Pt) : Bool := isFin p.1 && isFin p.2

/-- Loop state of `_doStraightLine`'s `while` loop in turtle.ts: the mutable
locals `x`, `y`, `newX`, `newY` and the remaining `distance`. -/
structure LoopState where
  x : JQ
  y : JQ
  newX : JQ
  newY : JQ
  dist : JQ
deriving DecidableEq

/-- turtle.ts line 590: `Math.abs((newX > x ? w - x : w + x) / sinAngle)`. -/
def edgeDistX (w sinA : ℚ) (x newX : JQ) : JQ :=
  jabs (jdiv (if jgt newX x then jsub (.fin w) x else jadd (.fin w) x) (.fin sinA))

/-- turtle.ts line 591: `Math.abs((newY > y ? h - y : h + y) / cosAngle)`. -/
def edgeDistY (h cosA : ℚ) (y newY : JQ) : JQ :=
  jabs (jdiv (if jgt newY y then jsub (.fin h) y else jadd (.fin h) y) (.fin cosA))

/-- The `while (distance > 0)` loop of `_doStraightLine` (turtle.ts lines
589-621), with explicit fuel.  Each iteration emits the segment drawn by the
`moveTo(x, y)` at the loop top and the `lineTo(newX, newY)` of whichever branch
runs.  The branch that does not cross a boundary sets `distance = 0` in the
source, which exits the loop; it is modelled by returning directly. -/
def go (sinA cosA w h : ℚ) (wrap : Bool) : Nat → LoopState → List Seg → Option (List Seg × JQ × JQ)
  | 0, _, _ => none
  | n + 1, s, acc =>
    if jgt s.dist (.fin 0) then
      if wrap && jgt (jabs s.newX) (.fin w) &&
          jle (edgeDistX w sinA s.x s.newX) (edgeDistY h cosA s.y s.newY) then
        go sinA cosA w h wrap n
          { x := if jgt s.newX (.fin 0) then .fin (-w) else .fin w
            y := jadd s.y (jmul (.fin cosA) (edgeDistX w sinA s.x s.newX))
            newX := jsub s.newX (if jgt s.newX (.fin 0) then .fin (2 * w) else .fin (-(2 * w)))
            newY := s.newY
            dist := jsub s.dist (edgeDistX w sinA s.x s.newX) }
          (acc ++ [((s.x, s.y), (s.newX, s.newY))])
      else if wrap && jgt (jabs s.newY) (.fin h) &&
          jge (edgeDistX w sinA s.x s.newX) (edgeDistY h cosA s.y s.newY) then
        go sinA cosA w h wrap n
          { x := jadd s.x (jmul (.fin sinA) (edgeDistY h cosA s.y s.newY))
            y := if jgt s.newY (.fin 0) then .fin (-h) else .fin h
            newX := s.newX
            newY := jsub s.newY (if jgt s.newY (.fin 0) then .fin (2 * h) else .fin (-(2 * h)))
            dist := jsub s.dist (edgeDistY h cosA s.y s.newY) }
          (acc ++ [((s.x, s.y), (s.newX, s.newY))])
      else
        some (acc ++ [((s.x, s.y), (s.newX, s.newY))], s.newX, s.newY)
    else
      some (acc, s.newX, s.newY)

/-- Number of residual boundary crossings visible in an unwrapped coordinate:
how many `2·extent` shifts are still needed to bring it inside `[-extent, extent]`. -/
def mEdge (extent : ℚ) : JQ → ℕ
  | .fin q => (Int.ceil ((|q| - extent) / (2 * extent))).toNat
  | _ => 0

/-- Termination measure for the wrap loop: total residual crossings of `newX`
and `newY`.  Every crossing iteration decreases it by one. -/
def mu (w h : ℚ) (s : LoopState) : ℕ := mEdge w s.newX + mEdge h s.newY

/-- Initial loop state of `_doStraightLine` (turtle.ts lines 582-585). -/
def initLoopState (sinA cosA d : ℚ) (x y : JQ) : LoopState :=
  { x := x, y := y
    newX := jadd x (jmul (.fin sinA) (.fin d))
    newY := jadd y (jmul (.fin cosA) (.fin d))
    dist := .fin d }

/-- The whole wrap-line computation of `_doStraightLine`: the emitted segments
and the final `(newX, newY)` passed to `goto`.  Fuel `mu + 1` is enough (proved
below); the default is unreachable. -/
def straightRun (sinA cosA w h : ℚ) (wrap : Bool) (d : ℚ) (x y : JQ) : List Seg × JQ × JQ :=
  let s0 := initLoopState sinA cosA d x y
  (go sinA cosA w h wrap (mu w h s0 + 1) s0 []).getD ([], x, y)

/-- An RGB color (colors.ts `Color`).  The claims only move `Color` values
around, so the r/g/b payload is all that is modelled. -/
structure Color where
  r : ℕ
  g : ℕ
  b : ℕ
deriving DecidableEq

/-- colors.ts `convertToColor`, restricted to the `col instanceof Color`
branch (`if (col instanceof Color) return col;`), which is the only branch the
modelled operations exercise; string/array parsing is excluded by the spec as
an external collaborator. -/
def convertToColor (c : Color) : Color := c

/-- Canvas `lineCap` values. -/
inductive LineCap where
  | butt
  | round
  | square
deriving DecidableEq

/-- steps.ts `TurtleStepType`/`TurtleStep`: one tag per queueable operation,
carrying exactly the operation's arguments. -/
inductive TurtleStep where
  | Forward (d : ℚ)
  | Backward (d : ℚ)
  | Left (deg : ℚ)
  | Right (deg : ℚ)
  | SetAngle (deg : ℚ)
  | Hide
  | Show
  | PenUp
  | PenDown
  | PenToggle
  | Reset
  | Clear
  | Goto (x y : JQ)
  | SetColor (c : Color)
  | SetWidth (n : ℚ)
  | SetShape (sh : List (ℚ × ℚ))
  | SetSpeed (ms : ℚ)
  | SetLineCap (cap : LineCap)
deriving DecidableEq

/-- The mutable state of a `Turtle` instance (turtle.ts fields), together with
the observable renderer state the claims mention: `ctxLineCap` is the canvas
context's `lineCap` property (the class stores it nowhere else) and
`drawnPaths` is the list of stroked segments currently on the canvas. -/
structure TurtleState where
  hidden : Bool
  wrap : Bool
  isPenDown : Bool
  stepByStep : Bool
  step : Bool
  steps : List TurtleStep
  speed : Option ℚ
  interval : Bool
  color : Color
  defaultColor : Color
  width : ℚ
  position : JQ × JQ
  angle : ℚ
  shape : List (ℚ × ℚ)
  ctxLineCap : LineCap
  drawnPaths : List Seg
deriving DecidableEq

/-- Ambient collaborators of a turtle: the canvas half-extents
(`ctx.canvas.width / 2`, `ctx.canvas.height / 2`) and the trigonometric
helpers `Math.sin(degToRad _)` / `Math.cos(degToRad _)` from the external
shapes.ts helper module, kept abstract. -/
structure Ctx where
  sinDeg : ℚ → ℚ
  cosDeg : ℚ → ℚ
  w : ℚ
  h : ℚ

namespace Turtle

/-- turtle.ts `get isInStep`: `!this._stepByStep || this._step`. -/
def isInStep (s : TurtleState) : Bool := !s.stepByStep || s.step

/-- turtle.ts `_clear`: wipe the canvas (`clearContext`); `drawTurtle` only
repaints the glyph overlay, which the snapshot/restore mechanism keeps off the
persistent canvas, so it is not part of the state. -/
def clearE (s : TurtleState) : TurtleState := { s with drawnPaths := [] }

/-- turtle.ts `clear` (public dispatch). -/
def clear (s : TurtleState) : TurtleState :=
  if isInStep s then clearE s else { s with steps := s.steps ++ [.Clear] }

/-- turtle.ts `_hide`. -/
def hideE (s : TurtleState) : TurtleState := { s with hidden := true }

/-- turtle.ts `hide` (public dispatch). -/
def hide (s : TurtleState) : TurtleState :=
  if isInStep s then hideE s else { s with steps := s.steps ++ [.Hide] }

/-- turtle.ts `_show`. -/
def showE (s : TurtleState) : TurtleState := { s with hidden := false }

/-- turtle.ts `show` (public dispatch; `show` is a Lean keyword, hence `showOp`). -/
def showOp (s : TurtleState) : TurtleState :=
  if isInStep s then showE s else { s with steps := s.steps ++ [.Show] }

/-- turtle.ts `_setShape`. -/
def setShapeE (sh : List (ℚ × ℚ)) (s : TurtleState) : TurtleState := { s with shape := sh }

/-- turtle.ts `setShape` (public dispatch). -/
def setShape (sh : List (ℚ × ℚ)) (s : TurtleState) : TurtleState :=
  if isInStep s then setShapeE sh s else { s with steps := s.steps ++ [.SetShape sh] }

/-- turtle.ts `_setSpeed`: `_stepByStep = ms > 0; _speed = ms;` then the
previous interval (if any) is cleared and a new interval is started
unconditionally, so afterwards exactly one timer exists. -/
def setSpeedE (ms : ℚ) (s : TurtleState) : TurtleState :=
  { s with stepByStep := decide (0 < ms), speed := some ms, interval := true }

/-- turtle.ts `setSpeed` (public dispatch). -/
def setSpeed (ms : ℚ) (s : TurtleState) : TurtleState :=
  if isInStep s then setSpeedE ms s else { s with steps := s.steps ++ [.SetSpeed ms] }

/-- turtle.ts `_penUp`. -/
def penUpE (s : TurtleState) : TurtleState := { s with isPenDown := false }

/-- turtle.ts `penUp` (public dispatch). -/
def penUp (s : TurtleState) : TurtleState :=
  if isInStep s then penUpE s else { s with steps := s.steps ++ [.PenUp] }

/-- turtle.ts `_penDown`. -/
def penDownE (s : TurtleState) : TurtleState := { s with isPenDown := true }

/-- turtle.ts `penDown` (public dispatch). -/
def penDown (s : TurtleState) : TurtleState :=
  if isInStep s then penDownE s else { s with steps := s.steps ++ [.PenDown] }

/-- turtle.ts `_penToggle`. -/
def penToggleE (s : TurtleState) : TurtleState := { s with isPenDown := !s.isPenDown }

/-- turtle.ts `penToggle` (public dispatch).  NOTE: the queued branch of the
source pushes `{ type: TurtleStepType.PenDown }` (turtle.ts line 437), not a
PenToggle step; this is modelled faithfully. -/
def penToggle (s : TurtleState) : TurtleState :=
  if isInStep s then penToggleE s else { s with steps := s.steps ++ [.PenDown] }

/-- turtle.ts `_setColor`. -/
def setColorE (c : Color) (s : TurtleState) : TurtleState :=
  { s with color := convertToColor c }

/-- turtle.ts `setColor` (public dispatch). -/
def setColor (c : Color) (s : TurtleState) : TurtleState :=
  if isInStep s then setColorE c s else { s with steps := s.steps ++ [.SetColor c] }

/-- turtle.ts `_setWidth`. -/
def setWidthE (n : ℚ) (s : TurtleState) : TurtleState := { s with width := n }

/-- turtle.ts `setWidth` (public dispatch). -/
def setWidth (n : ℚ) (s : TurtleState) : TurtleState :=
  if isInStep s then setWidthE n s else { s with steps := s.steps ++ [.SetWidth n] }

/-- turtle.ts `_setLineCap` (writes through to `ctx.lineCap`). -/
def setLineCapE (cap : LineCap) (s : TurtleState) : TurtleState := { s with ctxLineCap := cap }

/-- turtle.ts `setLineCap` (public dispatch). -/
def setLineCap (cap : LineCap) (s : TurtleState) : TurtleState :=
  if isInStep s then setLineCapE cap s else { s with steps := s.steps ++ [.SetLineCap cap] }

/-- turtle.ts `_setAngle`. -/
def setAngleE (deg : ℚ) (s : TurtleState) : TurtleState := { s with angle := deg }

/-- turtle.ts `setAngle` (public dispatch). -/
def setAngle (deg : ℚ) (s : TurtleState) : TurtleState :=
  if isInStep s then setAngleE deg s else { s with steps := s.steps ++ [.SetAngle deg] }

/-- turtle.ts `_left`: `this._angle -= degrees`. -/
def leftE (deg : ℚ) (s : TurtleState) : TurtleState := { s with angle := s.angle - deg }

/-- turtle.ts `left` (public dispatch). -/
def left (deg : ℚ) (s : TurtleState) : TurtleState :=
  if isInStep s then leftE deg s else { s with steps := s.steps ++ [.Left deg] }

/-- turtle.ts `_right`: the source (line 546) reads `this._angle -= degrees`,
identical to `_left`; modelled faithfully. -/
def rightE (deg : ℚ) (s : TurtleState) : TurtleState := { s with angle := s.angle - deg }

/-- turtle.ts `right` (public dispatch). -/
def right (deg : ℚ) (s : TurtleState) : TurtleState :=
  if isInStep s then rightE deg s else { s with steps := s.steps ++ [.Right deg] }

/-- turtle.ts `_goto`. -/
def gotoE (x y : JQ) (s : TurtleState) : TurtleState := { s with position := (x, y) }

/-- turtle.ts `goto` (public dispatch). -/
def goto (x y : JQ) (s : TurtleState) : TurtleState :=
  if isInStep s then gotoE x y s else { s with steps := s.steps ++ [.Goto x y] }

/-- turtle.ts `_doStraightLine`: run the wrap loop from the current position,
stroke the emitted segments when the pen is down (`if (this._isPenDown)
this.ctx.stroke()`), then call the public `goto` with the final
`(newX, newY)`. -/
def doStraightLine (c : Ctx) (d : ℚ) (s : TurtleState) : TurtleState :=
  let r := straightRun (c.sinDeg s.angle) (c.cosDeg s.angle) c.w c.h s.wrap d
    s.position.1 s.position.2
  goto r.2.1 r.2.2
    { s with drawnPaths := s.drawnPaths ++ (if s.isPenDown then r.1 else []) }

/-- turtle.ts `_forward`. -/
def forwardE (c : Ctx) (d : ℚ) (s : TurtleState) : TurtleState := doStraightLine c d s

/-- turtle.ts `forward` (public dispatch). -/
def forward (c : Ctx) (d : ℚ) (s : TurtleState) : TurtleState :=
  if isInStep s then forwardE c d s else { s with steps := s.steps ++ [.Forward d] }

/-- turtle.ts `_backward`: `this._doStraightLine(-distance)`. -/
def backwardE (c : Ctx) (d : ℚ) (s : TurtleState) : TurtleState := doStraightLine c (-d) s

/-- turtle.ts `backward` (public dispatch). -/
def backward (c : Ctx) (d : ℚ) (s : TurtleState) : TurtleState :=
  if isInStep s then backwardE c d s else { s with steps := s.steps ++ [.Backward d] }

/-- turtle.ts `_reset` (lines 345-354): force the flags, then run
`setWidth(1)`, `setColor(_defaultColor)`, `setAngle(0)`, `goto(0, 0)`,
`clear()` through the public dispatchers (all immediate because
`_stepByStep` was just set to false).  `_wrap` is not touched. -/
def resetE (s : TurtleState) : TurtleState :=
  clear (goto (.fin 0) (.fin 0) (setAngle 0 (setColor s.defaultColor (setWidth 1
    { s with hidden := false, isPenDown := true, stepByStep := false }))))

/-- turtle.ts `reset` (public dispatch). -/
def reset (s : TurtleState) : TurtleState :=
  if isInStep s then resetE s else { s with steps := s.steps ++ [.Reset] }

/-- turtle.ts `doStep` (lines 240-259): replay one dequeued step by calling
the matching public operation.  The source has no branch for
`TurtleStepType.Backward` or `TurtleStepType.PenToggle`, so those steps fall
through every `if` and leave the state unchanged. -/
def doStep (c : Ctx) (st : TurtleStep) (s : TurtleState) : TurtleState :=
  match st with
  | .Goto x y => goto x y s
  | .SetAngle a => setAngle a s
  | .Forward d => forward c d s
  | .Left a => left a s
  | .Right a => right a s
  | .Hide => hide s
  | .Show => showOp s
  | .PenDown => penDown s
  | .PenUp => penUp s
  | .Reset => reset s
  | .Clear => clear s
  | .SetColor col => setColor col s
  | .SetWidth n => setWidth n s
  | .SetSpeed ms => setSpeed ms s
  | .SetShape sh => setShape sh s
  | .SetLineCap cap => setLineCap cap s
  | .Backward _ => s
  | .PenToggle => s

/-- turtle.ts `nextStep` (lines 266-278): pop one step; if present, replay it
with the `_step` re-entrancy flag set; otherwise release the interval timer if
one is running. -/
def nextStep (c : Ctx) (s : TurtleState) : TurtleState :=
  match s.steps with
  | [] => if s.interval then { s with interval := false } else s
  | st :: rest =>
    let s1 := doStep c st { s with steps := rest, step := true }
    { s1 with step := false }

/-- Run `nextStep` a fixed number of times (one scheduler tick each). -/
def drainN (c : Ctx) : Nat → TurtleState → TurtleState
  | 0, s => s
  | n + 1, s => drainN c n (nextStep c s)

/-- Drain the scheduler synchronously: tick once per currently queued step
(replay never enqueues, so this empties the queue). -/
def drain (c : Ctx) (s : TurtleState) : TurtleState := drainN c s.steps.length s

/-- A fresh `Turtle` instance's state: the field initializers of the class
(no constructor options).  `BuiltInShapes.Default` lives in the external
shapes.ts helper module; its vertex payload is irrelevant to every claim and
is modelled as the empty placeholder list. -/
def initState : TurtleState where
  hidden := false
  wrap := true
  isPenDown := true
  stepByStep := false
  step := false
  steps := []
  speed := none
  interval := false
  color := ⟨255, 0, 255⟩
  defaultColor := ⟨255, 0, 255⟩
  width := 1
  position := (.fin 0, .fin 0)
  angle := 0
  shape := []
  ctxLineCap := .round
  drawnPaths := []

end Turtle

/-- A concrete context used by closed examples and witnesses: heading helpers
that point along the positive X axis for every angle, canvas 200×200. -/
def exCtx : Ctx := ⟨fun _ => 1, fun _ => 0, 100, 100⟩

/-- A concrete context whose heading helpers agree with the real
trigonometry at angle 0 (sin 0 = 0, cos 0 = 1), canvas 200×200. -/
def upCtx : Ctx := ⟨fun _ => 0, fun _ => 1, 100, 100⟩

/-- A turtle that has just entered step-by-step mode (as after `setSpeed(ms)`
with `ms > 0`): queue empty, `_stepByStep` set, the interval armed. -/
def stepModeState : TurtleState :=
  { Turtle.initState with stepByStep := true, interval := true }

/-- A turtle standing at `(-90, 0)` with all other fields fresh. -/
def offState : TurtleState :=
  { Turtle.initState with position := (.fin (-90), .fin 0) }

/-- A fresh turtle constructed with `disableWrapping: true`. -/
def noWrapState : TurtleState := { Turtle.initState with wrap := false }

/-- Squared Euclidean length of a segment whose endpoints are all finite
(`none` otherwise). -/
def segLen2 : Seg → Option ℚ
  | ((.fin x1, .fin y1), (.fin x2, .fin y2)) => some ((x2 - x1) ^ 2 + (y2 - y1) ^ 2)
  | _ => none

/-- The real number `L` is the Euclidean length of the segment `sg`:
`L` is nonnegative and its square is the segment's squared length.  (Stated
through squares so the development stays inside the rationals.) -/
def IsSegLen (sg : Seg) (L : ℚ) : Prop := 0 ≤ L ∧ segLen2 sg = some (L ^ 2)

instance (sg : Seg) (L : ℚ) : Decidable (IsSegLen sg L) :=
  inferInstanceAs (Decidable (0 ≤ L ∧ segLen2 sg = some (L ^ 2)))

example : straightRun 1 0 100 100 true 30 (.fin 90) (.fin 0) =
    ([((.fin 90, .fin 0), (.fin 120, .fin 0)),
      ((.fin (-100), .fin 0), (.fin (-80), .fin 0))], .fin (-80), .fin 0) := by with_unfolding_all decide

example : straightRun 1 0 100 100 true 150 (.fin 0) (.fin (-100)) =
    ([((.fin 0, .fin (-100)), (.fin 150, .fin (-100)))], .fin 150, .fin (-100)) := by with_unfolding_all decide

example : (Turtle.forward upCtx 10 Turtle.initState).position = (.fin 0, .fin 10) := by
  with_unfolding_all decide

example : (Turtle.backward upCtx 10 Turtle.initState).position = (.fin 0, .fin (-10)) := by
  with_unfolding_all decide

@[simp] lemma jadd_fin (a b : ℚ) : jadd (.fin a) (.fin b) = .fin (a + b) := rfl

@[simp] lemma jmul_fin (a b : ℚ) : jmul (.fin a) (.fin b) = .fin (a * b) := rfl

@[simp] lemma jneg_fin (a : ℚ) : jneg (.fin a) = .fin (-a) := rfl

@[simp] lemma jsub_fin (a b : ℚ) : jsub (.fin a) (.fin b) = .fin (a - b) := by
  simp [jsub, sub_eq_add_neg]

@[simp] lemma jgt_fin (a b : ℚ) : jgt (.fin a) (.fin b) = decide (b < a) := rfl

/-- Unfolding step for the wrap loop when the remaining distance is not
positive: the loop body never runs. -/
lemma go_succ_nonpos (sinA cosA w h : ℚ) (wrap : Bool) (n : Nat) (s : LoopState)
    (acc : List Seg) (hd : jgt s.dist (.fin 0) = false) :
    go sinA cosA w h wrap (n + 1) s acc = some (acc, s.newX, s.newY) := by
  simp [go, hd]

/-- Unfolding step for the wrap loop with wrapping disabled: the two crossing
branches are unreachable, so one segment to the straight destination is
emitted and the loop ends. -/
lemma go_succ_nowrap (sinA cosA w h : ℚ) (n : Nat) (s : LoopState) (acc : List Seg)
    (hd : jgt s.dist (.fin 0) = true) :
    go sinA cosA w h false (n + 1) s acc =
      some (acc ++ [((s.x, s.y), (s.newX, s.newY))], s.newX, s.newY) := by
  simp [go, hd]

/-- For a non-positive requested distance the wrap loop of `_doStraightLine`
emits no segment at all and the final point is the raw straight-line
destination, whatever the wrap flag. -/
lemma straightRun_nonpos (sinA cosA w h : ℚ) (wrap : Bool) (d : ℚ) (x y : JQ)
    (hd : d ≤ 0) :
    straightRun sinA cosA w h wrap d x y =
      ([], jadd x (jmul (.fin sinA) (.fin d)), jadd y (jmul (.fin cosA) (.fin d))) := by
  have h0 : jgt (initLoopState sinA cosA d x y).dist (JQ.fin 0) = false := by
    simp [initLoopState, jgt, jlt, not_lt, hd]
  simp only [straightRun]
  rw [go_succ_nonpos _ _ _ _ _ _ _ _ h0]
  simp [initLoopState]

/-- With wrapping disabled and a positive distance, `_doStraightLine` emits
exactly one segment, from the start to the straight destination. -/
lemma straightRun_nowrap_pos (sinA cosA w h d : ℚ) (x y : JQ) (hd : 0 < d) :
    straightRun sinA cosA w h false d x y =
      ([((x, y), (jadd x (jmul (.fin sinA) (.fin d)), jadd y (jmul (.fin cosA) (.fin d))))],
        jadd x (jmul (.fin sinA) (.fin d)), jadd y (jmul (.fin cosA) (.fin d))) := by
  have h0 : jgt (initLoopState sinA cosA d x y).dist (JQ.fin 0) = true := by
    simp [initLoopState, jgt, jlt, hd]
  simp only [straightRun]
  rw [go_succ_nowrap _ _ _ _ _ _ _ h0]
  simp [initLoopState]

/-- The final resting point with wrapping disabled is always the straight
destination, for either sign of the distance. -/
lemma straightRun_nowrap_final (sinA cosA w h d : ℚ) (x y : JQ) :
    (straightRun sinA cosA w h false d x y).2 =
      (jadd x (jmul (.fin sinA) (.fin d)), jadd y (jmul (.fin cosA) (.fin d))) := by
  rcases le_or_lt d 0 with hd | hd
  · rw [straightRun_nonpos _ _ _ _ _ _ _ _ hd]
  · rw [straightRun_nowrap_pos _ _ _ _ _ _ _ hd]

/-- C1: the claim says replaying any enqueued operation sequence through the
scheduler yields the same final state as immediate execution, with no Step
dropped.  It fails: `doStep` (turtle.ts lines 240-259) has no branch for
`TurtleStepType.Backward`, so an enqueued `backward(10)` is popped and
replayed with no effect, while immediate execution moves the turtle from
`(0, 0)` to `(0, -10)` (context: sin = 0, cos = 1, matching heading 0). -/
theorem backward_step_dropped_on_replay :
    (Turtle.drain upCtx (Turtle.backward upCtx 10 stepModeState)).position
        = (.fin 0, .fin 0) ∧
    (Turtle.drain upCtx (Turtle.backward upCtx 10 stepModeState)).steps = [] ∧
    (Turtle.backward upCtx 10 Turtle.initState).position = (.fin 0, .fin (-10)) ∧
    ((.fin 0, .fin 0) : JQ × JQ) ≠ (.fin 0, .fin (-10)) := by
  with_unfolding_all decide

/-- C2: the claim says a queued call appends exactly one Step describing the
call.  For `penToggle` it fails: the queued branch (turtle.ts line 437)
pushes `{ type: TurtleStepType.PenDown }`, not a PenToggle step, although the
step enum has `PenToggle` and the immediate branch emits `'penToggle'`.
The rest of the dispatch shape (state otherwise untouched) is as claimed. -/
theorem penToggle_enqueues_penDown_step :
    Turtle.penToggle stepModeState = { stepModeState with steps := [TurtleStep.PenDown] } ∧
    TurtleStep.PenDown ≠ TurtleStep.PenToggle := by
  with_unfolding_all decide

/-- C4: the claim says `right(a)` adds `a` to the angle.  The source
(turtle.ts line 546) reads `this._angle -= degrees` — the same subtraction as
`_left` — so `right(90)` from angle 0 yields `-90`, not `+90`. -/
theorem right_subtracts_angle :
    (Turtle.right 90 Turtle.initState).angle = -90 ∧
    (Turtle.left 90 Turtle.initState).angle = -90 ∧
    ((-90 : ℚ) ≠ 90) := by
  with_unfolding_all decide

/-- C3 counterexample: with wrapping enabled, pen down, heading with
sin = 1 / cos = 0 and half-extents 100, `backward(30)` from `(-90, 0)` should
(per the claim) wrap at the `x = -100` edge and come to rest on-canvas
(at `(80, 0)`), stroking the travelled segments.  The code's wrap loop runs
only `while (distance > 0)` and `_backward` passes `-30`, so the turtle ends
at the raw off-canvas destination `(-120, 0)` and no segment is stroked. -/
theorem backward_ignores_wrapping_counterexample :
    (Turtle.backward exCtx 30 offState).position = (.fin (-120), .fin 0) ∧
    (Turtle.backward exCtx 30 offState).wrap = true ∧
    (Turtle.backward exCtx 30 offState).isPenDown = true ∧
    ((-120 : ℚ) < -100) ∧
    (Turtle.backward exCtx 30 offState).drawnPaths = [] := by
  with_unfolding_all decide

/-- C3 (amended): in immediate mode, `backward(d)` for `d > 0` delegates to
the wrap-line algorithm with distance `-d`; because the loop only runs while
the remaining distance is positive, no segment is emitted (nothing is
stroked, wrapping never happens) and the position becomes the raw
straight-line destination `(x + sin·(-d), y + cos·(-d))`. -/
theorem backward_moves_straight_without_wrap (c : Ctx) (d x y : ℚ) (s : TurtleState)
    (h1 : Turtle.isInStep s = true) (h2 : 0 < d) (h3 : s.position = (.fin x, .fin y)) :
    (Turtle.backward c d s).position =
      (.fin (x + c.sinDeg s.angle * -d), .fin (y + c.cosDeg s.angle * -d)) ∧
    (Turtle.backward c d s).drawnPaths = s.drawnPaths := by
  have hneg : (-d : ℚ) ≤ 0 := by linarith
  have hin2 : Turtle.isInStep
      { s with drawnPaths := s.drawnPaths ++ [] } = true := by
    simpa [Turtle.isInStep] using h1
  rw [Turtle.backward, if_pos h1]
  unfold Turtle.backwardE Turtle.doStraightLine
  rw [h3]
  rw [straightRun_nonpos _ _ _ _ _ _ _ _ hneg]
  simp [Turtle.goto, Turtle.gotoE, Turtle.isInStep] at hin2 ⊢
  simp [hin2]

/-- C3 witness: the amended statement evaluated at the counterexample's
input. -/
theorem backward_moves_straight_without_wrap_witness :
    (Turtle.backward exCtx 30 offState).position = (.fin (-120), .fin 0) ∧
    (Turtle.backward exCtx 30 offState).drawnPaths = offState.drawnPaths := by
  have h := backward_moves_straight_without_wrap exCtx 30 (-90) 0 offState
    (by with_unfolding_all decide) (by norm_num) (by with_unfolding_all decide)
  have e1 : exCtx.sinDeg offState.angle = 1 := rfl
  have e2 : exCtx.cosDeg offState.angle = 0 := rfl
  rw [e1, e2] at h
  norm_num at h
  exact h

/-- C5 counterexample: the claim says `reset` forces `wrapEnabled = true`.
`_reset` (turtle.ts lines 345-354) never touches `_wrap`: resetting a
turtle whose wrapping is disabled leaves it disabled. -/
theorem reset_keeps_wrap_disabled :
    (Turtle.reset noWrapState).wrap = false ∧ false ≠ true := by
  with_unfolding_all decide

/-- C5 (amended): `reset` in immediate mode forces `hidden = false`,
`penDown = true`, `stepByStepActive = false`, then width 1, the default
color, angle 0, position `(0, 0)` and a cleared canvas, as one synchronous
sequence whose sub-steps all run in immediate mode (so the queue and every
other field — including `wrapEnabled`, which reset does not touch — are
unchanged). -/
theorem reset_restores_defaults_except_wrap (s : TurtleState)
    (h : Turtle.isInStep s = true) :
    Turtle.reset s = { s with
      hidden := false, isPenDown := true, stepByStep := false,
      width := 1, color := s.defaultColor, angle := 0,
      position := (.fin 0, .fin 0), drawnPaths := [] } := by
  rw [Turtle.reset, if_pos h]
  simp [Turtle.resetE, Turtle.clear, Turtle.goto, Turtle.setAngle, Turtle.setColor,
    Turtle.setWidth, Turtle.isInStep, Turtle.clearE, Turtle.gotoE, Turtle.setAngleE,
    Turtle.setColorE, Turtle.setWidthE, convertToColor]

/-- C5 witness: the amended statement evaluated on a turtle with wrapping
disabled and scattered non-default fields. -/
theorem reset_restores_defaults_except_wrap_witness :
    Turtle.reset noWrapState = { noWrapState with
      hidden := false, isPenDown := true,
      stepByStep := false, width := 1, color := noWrapState.defaultColor, angle := 0,
      position := (.fin 0, .fin 0), drawnPaths := [] } :=
  reset_restores_defaults_except_wrap noWrapState (by with_unfolding_all decide)

/-- Replaying a step never touches the queue: every operation `doStep`
dispatches runs in immediate mode because the `_step` flag is set. -/
lemma doStep_steps (c : Ctx) (st : TurtleStep) (s : TurtleState) (h : s.step = true) :
    (Turtle.doStep c st s).steps = s.steps := by
  have hin : Turtle.isInStep s = true := by simp [Turtle.isInStep, h]
  cases st <;>
    simp [Turtle.doStep, Turtle.goto, Turtle.setAngle, Turtle.forward, Turtle.left,
      Turtle.right, Turtle.hide, Turtle.showOp, Turtle.penDown, Turtle.penUp,
      Turtle.reset, Turtle.clear, Turtle.setColor, Turtle.setWidth, Turtle.setSpeed,
      Turtle.setShape, Turtle.setLineCap, hin, Turtle.gotoE, Turtle.setAngleE,
      Turtle.forwardE, Turtle.leftE, Turtle.rightE, Turtle.hideE, Turtle.showE,
      Turtle.penDownE, Turtle.penUpE, Turtle.resetE, Turtle.clearE, Turtle.setColorE,
      Turtle.setWidthE, Turtle.setSpeedE, Turtle.setShapeE, Turtle.setLineCapE,
      Turtle.doStraightLine, Turtle.isInStep, h]

/-- C6 counterexample: the claim says the scheduler's timer is created only
when `setSpeed` is called with `ms > 0` — never for `ms ≤ 0` — and that
`setSpeed` with `ms ≤ 0` tears the timer down.  `_setSpeed` (turtle.ts lines
387-394) unconditionally runs `this._interval = setInterval(...)`: calling
`setSpeed(0)` on a fresh turtle (no timer) leaves a live timer while
`stepByStepActive` is false. -/
theorem setSpeed_zero_creates_timer :
    Turtle.initState.interval = false ∧
    (Turtle.setSpeed 0 Turtle.initState).interval = true ∧
    (Turtle.setSpeed 0 Turtle.initState).stepByStep = false := by
  with_unfolding_all decide

/-- C6 (amended): `setSpeed` (in immediate mode) always stops any previous
timer and starts a new one — for every `ms`, not only `ms > 0` — and sets
`stepByStepActive = (ms > 0)` and `speed = ms`; a scheduler tick on an empty
queue only releases the timer; a tick on a non-empty queue replays exactly
the head step (at most one step per tick), leaving the rest queued.  Timer
teardown thus happens through the empty-queue tick, not through
`setSpeed(ms ≤ 0)`. -/
theorem scheduler_timer_behavior :
    (∀ (s : TurtleState) (ms : ℚ), Turtle.isInStep s = true →
      (Turtle.setSpeed ms s).interval = true ∧
      (Turtle.setSpeed ms s).stepByStep = decide (0 < ms) ∧
      (Turtle.setSpeed ms s).speed = some ms) ∧
    (∀ (c : Ctx) (s : TurtleState), s.steps = [] →
      Turtle.nextStep c s = { s with interval := false }) ∧
    (∀ (c : Ctx) (s : TurtleState) (st : TurtleStep) (rest : List TurtleStep),
      s.steps = st :: rest → (Turtle.nextStep c s).steps = rest) := by
  refine ⟨?_, ?_, ?_⟩
  · intro s ms h
    simp [Turtle.setSpeed, h, Turtle.setSpeedE]
  · intro c s h
    cases s with
    | mk hidden wrap pen sbs st steps speed itv col dcol wid pos ang sh cap dp =>
      simp only at h
      subst h
      simp only [Turtle.nextStep]
      split
      · rfl
      · next hitv =>
        simp only [Bool.not_eq_true] at hitv
        subst hitv
        rfl
  · intro c s st rest h
    simp only [Turtle.nextStep, h]
    rw [doStep_steps]
    rfl

/-- C6 witness: the amended statement evaluated at concrete inputs — a
`setSpeed(5)` on a fresh turtle, an empty-queue tick, and a tick consuming a
queued `Hide`. -/
theorem scheduler_timer_behavior_witness :
    ((Turtle.setSpeed 5 Turtle.initState).interval = true ∧
      (Turtle.setSpeed 5 Turtle.initState).stepByStep = decide ((0 : ℚ) < 5) ∧
      (Turtle.setSpeed 5 Turtle.initState).speed = some 5) ∧
    Turtle.nextStep upCtx Turtle.initState = { Turtle.initState with interval := false } ∧
    (Turtle.nextStep upCtx { Turtle.initState with steps := [TurtleStep.Hide] }).steps = [] :=
  ⟨scheduler_timer_behavior.1 Turtle.initState 5 rfl,
    scheduler_timer_behavior.2.1 upCtx Turtle.initState rfl,
    scheduler_timer_behavior.2.2 upCtx _ TurtleStep.Hide [] rfl⟩

/-- Adding the signed displacement and then its negation restores any
JavaScript number (exactly, over idealized reals). -/
lemma jadd_roundtrip (x : JQ) (q d : ℚ) :
    jadd (jadd x (jmul (.fin q) (.fin d))) (jmul (.fin q) (.fin (-d))) = x := by
  cases x with
  | fin a => simp only [jmul_fin, jadd_fin]; congr 1; ring
  | inf s => simp [jadd, jmul]
  | nan => simp [jadd, jmul]

/-- With wrapping disabled (in immediate mode), `_doStraightLine` moves the
position straight to `position + (sin·d, cos·d)` and appends the emitted
segments to the canvas when the pen is down. -/
lemma doStraightLine_nowrap (c : Ctx) (d : ℚ) (s : TurtleState) (hw : s.wrap = false)
    (h1 : Turtle.isInStep s = true) :
    Turtle.doStraightLine c d s = { s with
      position := (jadd s.position.1 (jmul (.fin (c.sinDeg s.angle)) (.fin d)),
        jadd s.position.2 (jmul (.fin (c.cosDeg s.angle)) (.fin d))),
      drawnPaths := s.drawnPaths ++ (if s.isPenDown then
        (straightRun (c.sinDeg s.angle) (c.cosDeg s.angle) c.w c.h false d
          s.position.1 s.position.2).1 else []) } := by
  simp only [Turtle.doStraightLine, hw]
  rw [Turtle.goto, if_pos (by simpa [Turtle.isInStep] using h1)]
  rw [straightRun_nowrap_final]
  rfl

/-- `forward(d)` in immediate mode with wrapping disabled, explicitly. -/
lemma forward_nowrap (c : Ctx) (d : ℚ) (s : TurtleState) (hw : s.wrap = false)
    (h1 : Turtle.isInStep s = true) :
    Turtle.forward c d s = { s with
      position := (jadd s.position.1 (jmul (.fin (c.sinDeg s.angle)) (.fin d)),
        jadd s.position.2 (jmul (.fin (c.cosDeg s.angle)) (.fin d))),
      drawnPaths := s.drawnPaths ++ (if s.isPenDown then
        (straightRun (c.sinDeg s.angle) (c.cosDeg s.angle) c.w c.h false d
          s.position.1 s.position.2).1 else []) } := by
  rw [Turtle.forward, if_pos h1]
  exact doStraightLine_nowrap c d s hw h1

/-- `backward(d)` in immediate mode with wrapping disabled, explicitly. -/
lemma backward_nowrap (c : Ctx) (d : ℚ) (s : TurtleState) (hw : s.wrap = false)
    (h1 : Turtle.isInStep s = true) :
    Turtle.backward c d s = { s with
      position := (jadd s.position.1 (jmul (.fin (c.sinDeg s.angle)) (.fin (-d))),
        jadd s.position.2 (jmul (.fin (c.cosDeg s.angle)) (.fin (-d)))),
      drawnPaths := s.drawnPaths ++ (if s.isPenDown then
        (straightRun (c.sinDeg s.angle) (c.cosDeg s.angle) c.w c.h false (-d)
          s.position.1 s.position.2).1 else []) } := by
  rw [Turtle.backward, if_pos h1]
  exact doStraightLine_nowrap c (-d) s hw h1

/-- C9: with wrapping disabled, `forward(d)` then `backward(d)` in immediate
mode returns the position to its original value (exactly, in the idealized
model — in particular within floating-point tolerance) and leaves the
heading unchanged.  Both legs move straight to
`position ± (sin·d, cos·d)`, and the displacements cancel. -/
theorem forward_backward_roundtrip (c : Ctx) (d : ℚ) (s : TurtleState)
    (hw : s.wrap = false) (h1 : Turtle.isInStep s = true) :
    (Turtle.backward c d (Turtle.forward c d s)).position = s.position ∧
    (Turtle.backward c d (Turtle.forward c d s)).angle = s.angle := by
  rw [forward_nowrap c d s hw h1]
  rw [backward_nowrap c d _ (by simp [hw]) (by simpa [Turtle.isInStep] using h1)]
  constructor
  · simp only
    rw [jadd_roundtrip, jadd_roundtrip]
  · simp only

/-- C9 witness: the round trip evaluated on a fresh turtle with wrapping
disabled, context heading (sin, cos) = (0, 1), distance 10. -/
theorem forward_backward_roundtrip_witness :
    (Turtle.backward upCtx 10 (Turtle.forward upCtx 10 noWrapState)).position
        = noWrapState.position ∧
    (Turtle.backward upCtx 10 (Turtle.forward upCtx 10 noWrapState)).angle
        = noWrapState.angle :=
  forward_backward_roundtrip upCtx 10 noWrapState rfl rfl

set_option maxRecDepth 20000 in
/-- C7 counterexample: the claim says each crossing iteration emits a segment
ending at the boundary-crossing point and that the emitted lengths sum to
`|d|`.  At the spec's own worked example — half-extents 100, start `(90, 0)`,
direction `(sin, cos) = (1, 0)`, `d = 30`, wrap enabled — the code's crossing
iteration executes `lineTo(newX, newY)` with the unwrapped destination, so
the first segment runs from `(90, 0)` to `(120, 0)` (length 30, ending past
the `x = 100` boundary, not at it) and the second from `(-100, 0)` to
`(-80, 0)` (length 20): total 50 ≠ 30. -/
theorem wrap_conservation_counterexample :
    (straightRun 1 0 100 100 true 30 (.fin 90) (.fin 0)).1 =
      [((.fin 90, .fin 0), (.fin 120, .fin 0)),
        ((.fin (-100), .fin 0), (.fin (-80), .fin 0))] ∧
    IsSegLen ((.fin 90, .fin 0), (.fin 120, .fin 0)) 30 ∧
    IsSegLen ((.fin (-100), .fin 0), (.fin (-80), .fin 0)) 20 ∧
    ((30 : ℚ) + 20 ≠ 30) ∧ ((120 : ℚ) > 100) := by
  with_unfolding_all decide

/-- C7 (amended): the wrap-line algorithm conserves length only when no
crossing iteration runs: with wrapping disabled and `d ≥ 0` the emitted
segments total exactly `|d| = d` (no segment for `d = 0`, one segment of
length `d` for `d > 0`, given a unit direction vector).  A crossing
iteration instead emits a segment ending at the current unwrapped
destination — beyond the boundary, not at the crossing point — so runs with
crossings emit total length exceeding `|d|`. -/
theorem wrap_conservation_no_crossing (sinA cosA w h d x y : ℚ)
    (hd : 0 ≤ d) (hsc : sinA ^ 2 + cosA ^ 2 = 1) :
    (d = 0 → (straightRun sinA cosA w h false d (.fin x) (.fin y)).1 = []) ∧
    (0 < d →
      (straightRun sinA cosA w h false d (.fin x) (.fin y)).1 =
        [((.fin x, .fin y), (.fin (x + sinA * d), .fin (y + cosA * d)))] ∧
      IsSegLen ((.fin x, .fin y), (.fin (x + sinA * d), .fin (y + cosA * d))) d) := by
  constructor
  · intro h0
    subst h0
    rw [straightRun_nonpos _ _ _ _ _ _ _ _ le_rfl]
  · intro hpos
    rw [straightRun_nowrap_pos _ _ _ _ _ _ _ hpos]
    refine ⟨by simp, ⟨hd, ?_⟩⟩
    simp only [segLen2]
    congr 1
    linear_combination d ^ 2 * hsc

/-- C7 witness: the amended conservation statement at direction
`(3/5, 4/5)` (a unit vector), distance 5, from the origin. -/
theorem wrap_conservation_no_crossing_witness :
    (straightRun (3/5) (4/5) 100 100 false 5 (.fin 0) (.fin 0)).1 =
      [((.fin 0, .fin 0), (.fin (0 + 3/5 * 5), .fin (0 + 4/5 * 5)))] ∧
    IsSegLen ((.fin 0, .fin 0), (.fin (0 + 3/5 * 5), .fin (0 + 4/5 * 5))) 5 :=
  (wrap_conservation_no_crossing (3/5) (4/5) 100 100 5 0 0 (by norm_num)
    (by norm_num)).2 (by norm_num)

/-- C8 counterexample: the claim says a zero direction component is handled
by an explicit guard that makes that axis's edge distance effectively
infinite, for any start position including points exactly on a boundary.
There is no guard: with the turtle exactly on the bottom boundary
(`y = -100`) and heading parallel to it (`sin = 1, cos = 0`), the source
computes `Math.abs((h + y) / cosAngle) = |0 / 0| = NaN`, not infinity; the
NaN comparison then disables the X-crossing branch too
(`distanceToEdgeX <= distanceToEdgeY` is false), so with wrap enabled and
`d = 150` the run emits a single segment to `(150, -100)` and rests there —
off canvas — whereas an infinite `distanceToEdgeY` would have wrapped to
`(-50, -100)`. -/
theorem edge_distance_nan_on_boundary :
    edgeDistY 100 0 (.fin (-100)) (.fin (-100)) = JQ.nan ∧
    JQ.nan ≠ JQ.inf true ∧
    jle (edgeDistX 100 1 (.fin 0) (.fin 150)) (edgeDistY 100 0 (.fin (-100)) (.fin (-100)))
      = false ∧
    straightRun 1 0 100 100 true 150 (.fin 0) (.fin (-100)) =
      ([((.fin 0, .fin (-100)), (.fin 150, .fin (-100)))], .fin 150, .fin (-100)) ∧
    ((150 : ℚ) > 100) := by
  with_unfolding_all decide

lemma isFin_iff {a : JQ} : isFin a = true ↔ ∃ q, a = JQ.fin q := by
  cases a <;> simp [isFin]

lemma isFin_ite_fin (p : Prop) [Decidable p] (u v : ℚ) :
    isFin (if p then JQ.fin u else JQ.fin v) = true := by
  split <;> rfl

lemma isFin_jsub_ite (a : JQ) (p : Prop) [Decidable p] (u v : ℚ) (ha : isFin a = true) :
    isFin (jsub a (if p then JQ.fin u else JQ.fin v)) = true := by
  obtain ⟨q, rfl⟩ := isFin_iff.1 ha
  split <;> rfl

lemma jabs_ne_negInf (a : JQ) : jabs a ≠ JQ.inf false := by
  cases a <;> simp [jabs]

lemma edgeDistX_ne_negInf (w sinA : ℚ) (x nx : JQ) : edgeDistX w sinA x nx ≠ JQ.inf false :=
  jabs_ne_negInf _

lemma edgeDistY_ne_negInf (h cosA : ℚ) (y ny : JQ) : edgeDistY h cosA y ny ≠ JQ.inf false :=
  jabs_ne_negInf _

/-- If the remaining distance is still positive after subtracting an edge
distance that is not negative infinity, that edge distance was finite. -/
lemma dist_pos_after_sub (dist dX : JQ) (hne : dX ≠ JQ.inf false)
    (hgtd : jgt (jsub dist dX) (JQ.fin 0) = true) : ∃ q, dX = JQ.fin q := by
  cases dX with
  | fin q => exact ⟨q, rfl⟩
  | inf b =>
    cases b with
    | false => exact absurd rfl hne
    | true =>
      exfalso
      cases dist with
      | fin a => simp [jsub, jadd, jneg, jgt, jlt] at hgtd
      | inf s => cases s <;> simp [jsub, jadd, jneg, jgt, jlt] at hgtd
      | nan => simp [jsub, jadd, jneg, jgt, jlt] at hgtd
  | nan =>
    exfalso
    cases dist <;> simp [jsub, jadd, jneg, jgt, jlt] at hgtd

/-- Every output of the wrap loop is NaN-free and finite: all emitted segment
endpoints and the final `(newX, newY)` are finite numbers, provided the
inputs were.  (The loop can manufacture Infinity or NaN internally — in the
edge distances, and in `x`/`y`/`distance` after a division by zero — but
those values never reach a `lineTo` argument or the final `goto`.) -/
lemma go_finite (sinA cosA w h : ℚ) (wrap : Bool) :
    ∀ (n : Nat) (s : LoopState) (acc : List Seg) (out : List Seg × JQ × JQ),
      isFin s.newX = true → isFin s.newY = true →
      (jgt s.dist (.fin 0) = true → isFin s.x = true ∧ isFin s.y = true) →
      (∀ sg ∈ acc, finPt sg.1 = true ∧ finPt sg.2 = true) →
      go sinA cosA w h wrap n s acc = some out →
      (∀ sg ∈ out.1, finPt sg.1 = true ∧ finPt sg.2 = true) ∧
        isFin out.2.1 = true ∧ isFin out.2.2 = true := by
  intro n
  induction n with
  | zero =>
    intro s acc out _ _ _ _ hgo
    simp [go] at hgo
  | succ n ih =>
    intro s acc out hnx hny hxy hacc hgo
    rw [go] at hgo
    by_cases hdist : jgt s.dist (JQ.fin 0) = true
    · rw [if_pos hdist] at hgo
      obtain ⟨hx, hy⟩ := hxy hdist
      have hseg : ∀ sg ∈ acc ++ [((s.x, s.y), (s.newX, s.newY))],
          finPt sg.1 = true ∧ finPt sg.2 = true := by
        intro sg hsg
        rcases List.mem_append.1 hsg with hsg | hsg
        · exact hacc sg hsg
        · rcases List.mem_singleton.1 hsg with rfl
          exact ⟨by simp [finPt, hx, hy], by simp [finPt, hnx, hny]⟩
      by_cases hc1 : (wrap && jgt (jabs s.newX) (JQ.fin w) &&
          jle (edgeDistX w sinA s.x s.newX) (edgeDistY h cosA s.y s.newY)) = true
      · rw [if_pos hc1] at hgo
        refine ih _ _ out ?_ ?_ ?_ hseg hgo
        · exact isFin_jsub_ite _ _ _ _ hnx
        · exact hny
        · intro hd
          refine ⟨isFin_ite_fin _ _ _, ?_⟩
          obtain ⟨q, hq⟩ := dist_pos_after_sub s.dist (edgeDistX w sinA s.x s.newX)
            (edgeDistX_ne_negInf w sinA s.x s.newX) hd
          show isFin (jadd s.y (jmul (JQ.fin cosA) (edgeDistX w sinA s.x s.newX))) = true
          rw [hq]
          obtain ⟨ay, hay⟩ := isFin_iff.1 hy
          rw [hay]
          rfl
      · rw [if_neg hc1] at hgo
        by_cases hc2 : (wrap && jgt (jabs s.newY) (JQ.fin h) &&
            jge (edgeDistX w sinA s.x s.newX) (edgeDistY h cosA s.y s.newY)) = true
        · rw [if_pos hc2] at hgo
          refine ih _ _ out ?_ ?_ ?_ hseg hgo
          · exact hnx
          · exact isFin_jsub_ite _ _ _ _ hny
          · intro hd
            refine ⟨?_, isFin_ite_fin _ _ _⟩
            obtain ⟨q, hq⟩ := dist_pos_after_sub s.dist (edgeDistY h cosA s.y s.newY)
              (edgeDistY_ne_negInf h cosA s.y s.newY) hd
            show isFin (jadd s.x (jmul (JQ.fin sinA) (edgeDistY h cosA s.y s.newY))) = true
            rw [hq]
            obtain ⟨ax, hax⟩ := isFin_iff.1 hx
            rw [hax]
            rfl
        · rw [if_neg hc2] at hgo
          cases hgo
          exact ⟨hseg, hnx, hny⟩
    · rw [if_neg hdist] at hgo
      cases hgo
      exact ⟨hacc, hnx, hny⟩

/-- C8 (amended): there is no explicit zero-denominator guard — the source
performs the division, which yields Infinity when the numerator is nonzero
(and that infinity does behave as "unreachable" in the comparisons), but
yields NaN for a start exactly on a boundary with the heading parallel to it,
in which case both crossing branches are skipped for that iteration (the NaN
comparisons are false) rather than only the zero-component axis being treated
as unreachable.  What does hold in all cases: no NaN or Infinity ever reaches
the emitted segments or the final resting point — every `lineTo` endpoint and
the final `(newX, newY)` are finite for all finite inputs. -/
theorem straightRun_outputs_finite (sinA cosA w h d x y : ℚ) (wrap : Bool) :
    (∀ sg ∈ (straightRun sinA cosA w h wrap d (.fin x) (.fin y)).1,
      finPt sg.1 = true ∧ finPt sg.2 = true) ∧
    isFin (straightRun sinA cosA w h wrap d (.fin x) (.fin y)).2.1 = true ∧
    isFin (straightRun sinA cosA w h wrap d (.fin x) (.fin y)).2.2 = true := by
  simp only [straightRun]
  cases hgo : go sinA cosA w h wrap
      (mu w h (initLoopState sinA cosA d (.fin x) (.fin y)) + 1)
      (initLoopState sinA cosA d (.fin x) (.fin y)) [] with
  | none => simp [isFin]
  | some out =>
    have hres := go_finite sinA cosA w h wrap _ _ _ out
      (by simp [initLoopState, isFin]) (by simp [initLoopState, isFin])
      (fun _ => ⟨by simp [initLoopState, isFin], by simp [initLoopState, isFin]⟩)
      (by simp) hgo
    simpa using hres

/-- C8 witness: the finiteness statement at the on-boundary counterexample
input, instantiated at the single emitted segment. -/
theorem straightRun_outputs_finite_witness :
    (finPt ((.fin 0, .fin (-100)) : Pt) = true ∧
      finPt ((.fin 150, .fin (-100)) : Pt) = true) ∧
    isFin (straightRun 1 0 100 100 true 150 (.fin 0) (.fin (-100))).2.1 = true ∧
    isFin (straightRun 1 0 100 100 true 150 (.fin 0) (.fin (-100))).2.2 = true := by
  have hall := straightRun_outputs_finite 1 0 100 100 150 0 (-100) true
  refine ⟨hall.1 ((.fin 0, .fin (-100)), (.fin 150, .fin (-100))) ?_, hall.2⟩
  have : (straightRun 1 0 100 100 true 150 (.fin 0) (.fin (-100))).1 =
      [((.fin 0, .fin (-100)), (.fin 150, .fin (-100)))] := by
    with_unfolding_all decide
  rw [this]
  exact List.mem_singleton.2 rfl

/-- Teleporting an unwrapped coordinate one canvas width towards the origin
(positive side) removes exactly one residual crossing. -/
lemma mEdge_shift_pos (w q : ℚ) (hw : 0 < w) (hq : w < q) :
    mEdge w (JQ.fin (q - 2 * w)) + 1 = mEdge w (JQ.fin q) := by
  have h2w : 0 < 2 * w := by linarith
  have h2w' : (2 * w) ≠ 0 := ne_of_gt h2w
  have habs2 : |q| = q := abs_of_nonneg (by linarith)
  rcases le_or_lt (2 * w) q with hcase | hcase
  · have habs1 : |q - 2 * w| = q - 2 * w := abs_of_nonneg (by linarith)
    have key : (|q - 2 * w| - w) / (2 * w) = (|q| - w) / (2 * w) - 1 := by
      rw [habs1, habs2]
      field_simp
      ring
    simp only [mEdge]
    rw [key, Int.ceil_sub_one]
    have hpos : 0 < Int.ceil ((|q| - w) / (2 * w)) := by
      rw [Int.ceil_pos]
      exact div_pos (by rw [habs2]; linarith) h2w
    omega
  · have habs1 : |q - 2 * w| = 2 * w - q := by
      rw [abs_of_nonpos (by linarith)]
      ring
    have hL : Int.ceil ((|q - 2 * w| - w) / (2 * w)) = 0 := by
      rw [Int.ceil_eq_zero_iff, Set.mem_Ioc, habs1]
      constructor
      · rw [lt_div_iff₀ h2w]
        linarith
      · exact div_nonpos_iff.2 (Or.inr ⟨by linarith, by linarith⟩)
    have hR : Int.ceil ((|q| - w) / (2 * w)) = 1 := by
      rw [habs2, Int.ceil_eq_iff]
      constructor
      · push_cast
        rw [lt_div_iff₀ h2w]
        linarith
      · push_cast
        rw [div_le_one h2w]
        linarith
    simp only [mEdge]
    rw [hL, hR]
    rfl

/-- The residual-crossing count only depends on the coordinate's absolute
value. -/
lemma mEdge_neg (w q : ℚ) : mEdge w (JQ.fin (-q)) = mEdge w (JQ.fin q) := by
  simp [mEdge, abs_neg]

/-- Negative-side analogue of `mEdge_shift_pos`. -/
lemma mEdge_shift_neg (w q : ℚ) (hw : 0 < w) (hq : q < -w) :
    mEdge w (JQ.fin (q + 2 * w)) + 1 = mEdge w (JQ.fin q) := by
  have h1 : q + 2 * w = -((-q) - 2 * w) := by ring
  rw [h1, mEdge_neg, ← mEdge_neg w q]
  have h2 : -q > w := by linarith
  simpa using mEdge_shift_pos w (-q) hw h2

/-- A coordinate beyond the boundary has at least one residual crossing. -/
lemma mEdge_pos (extent q : ℚ) (hw : 0 < extent) (hq : extent < |q|) :
    1 ≤ mEdge extent (JQ.fin q) := by
  simp only [mEdge]
  have : (0:ℤ) < Int.ceil ((|q| - extent) / (2 * extent)) := by
    rw [Int.ceil_pos]
    exact div_pos (by linarith) (by linarith)
  omega

/-- The teleport performed by a crossing branch of the wrap loop removes
exactly one residual crossing from the shifted coordinate. -/
lemma mEdge_crossing_step (w q : ℚ) (hw : 0 < w) (hq : w < |q|) :
    mEdge w (jsub (JQ.fin q) (if jgt (JQ.fin q) (JQ.fin 0) = true then JQ.fin (2 * w)
      else JQ.fin (-(2 * w)))) + 1 = mEdge w (JQ.fin q) := by
  by_cases h0 : jgt (JQ.fin q) (JQ.fin 0) = true
  · rw [if_pos h0, jsub_fin]
    have hq0 : 0 < q := by simpa [jgt, jlt] using h0
    exact mEdge_shift_pos w q hw (by rwa [abs_of_pos hq0] at hq)
  · rw [if_neg h0, jsub_fin]
    have hq0 : q ≤ 0 := by simpa [jgt, jlt, not_lt] using h0
    have he : q - -(2 * w) = q + 2 * w := by ring
    rw [he]
    refine mEdge_shift_neg w q hw ?_
    rw [abs_of_nonpos hq0] at hq
    linarith

/-- Fuel `mu + 1` always suffices: the wrap loop of `_doStraightLine`
terminates for every finite input with positive half-extents.  Each crossing
branch strictly decreases `mu` (it shifts the unwrapped destination one
canvas span towards the origin), and every other branch stops at once —
including the zero-progress iterations that subtract a zero edge distance. -/
lemma go_total (sinA cosA w h : ℚ) (wrap : Bool) (hw : 0 < w) (hh : 0 < h) :
    ∀ (n : Nat) (s : LoopState), isFin s.newX = true → isFin s.newY = true →
      mu w h s < n → ∀ acc, (go sinA cosA w h wrap n s acc).isSome = true := by
  intro n
  induction n with
  | zero => intro s _ _ hlt acc; omega
  | succ n ih =>
    intro s hnx hny hlt acc
    rw [go]
    by_cases hdist : jgt s.dist (JQ.fin 0) = true
    · rw [if_pos hdist]
      obtain ⟨qx, hqx⟩ := isFin_iff.1 hnx
      obtain ⟨qy, hqy⟩ := isFin_iff.1 hny
      by_cases hc1 : (wrap && jgt (jabs s.newX) (JQ.fin w) &&
          jle (edgeDistX w sinA s.x s.newX) (edgeDistY h cosA s.y s.newY)) = true
      · rw [if_pos hc1]
        have hgtx : w < |qx| := by
          have h1 : jgt (jabs s.newX) (JQ.fin w) = true := by
            simp only [Bool.and_eq_true] at hc1
            exact hc1.1.2
          rw [hqx] at h1
          simpa [jabs, jgt, jlt] using h1
        apply ih
        · show isFin (jsub s.newX _) = true
          rw [hqx]
          exact isFin_jsub_ite _ _ _ _ rfl
        · exact hny
        · show mEdge w (jsub s.newX _) + mEdge h s.newY < n
          simp only [mu] at hlt
          rw [hqx] at hlt ⊢
          have hstep := mEdge_crossing_step w qx hw hgtx
          omega
      · rw [if_neg hc1]
        by_cases hc2 : (wrap && jgt (jabs s.newY) (JQ.fin h) &&
            jge (edgeDistX w sinA s.x s.newX) (edgeDistY h cosA s.y s.newY)) = true
        · rw [if_pos hc2]
          have hgty : h < |qy| := by
            have h1 : jgt (jabs s.newY) (JQ.fin h) = true := by
              simp only [Bool.and_eq_true] at hc2
              exact hc2.1.2
            rw [hqy] at h1
            simpa [jabs, jgt, jlt] using h1
          apply ih
          · exact hnx
          · show isFin (jsub s.newY _) = true
            rw [hqy]
            exact isFin_jsub_ite _ _ _ _ rfl
          · show mEdge w s.newX + mEdge h (jsub s.newY _) < n
            simp only [mu] at hlt
            rw [hqy] at hlt ⊢
            have hstep := mEdge_crossing_step h qy hh hgty
            omega
        · rw [if_neg hc2]
          rfl
    · rw [if_neg hdist]
      rfl

/-- C10: the `while (distance > 0)` loop of `_doStraightLine` performs only
finitely many iterations for every finite start position (on, inside or
outside the canvas), heading, signed distance, and positive half-extents:
the explicit fuel `mu + 1` — one plus the number of residual boundary
crossings of the unwrapped destination — is always enough for the loop to
finish.  A zero-progress crossing (edge distance 0, start exactly on an edge
or corner) still decreases `mu`, so at most finitely many iterations
subtract nothing. -/
theorem straightLine_loop_terminates (sinA cosA w h d x y : ℚ) (wrap : Bool)
    (hw : 0 < w) (hh : 0 < h) :
    (go sinA cosA w h wrap
      (mu w h (initLoopState sinA cosA d (.fin x) (.fin y)) + 1)
      (initLoopState sinA cosA d (.fin x) (.fin y)) []).isSome = true :=
  go_total sinA cosA w h wrap hw hh _ _
    (by simp [initLoopState, isFin]) (by simp [initLoopState, isFin])
    (Nat.lt_succ_self _) []

/-- C10 witness: termination at the spec's wrap example — start `(90, 0)`,
direction `(1, 0)`, distance 30, half-extents 100, wrap enabled. -/
theorem straightLine_loop_terminates_witness :
    (go 1 0 100 100 true
      (mu 100 100 (initLoopState 1 0 30 (.fin 90) (.fin 0)) + 1)
      (initLoopState 1 0 30 (.fin 90) (.fin 0)) []).isSome = true :=
  straightLine_loop_terminates 1 0 100 100 30 90 0 true (by norm_num) (by norm_num)
